import Mathlib

/-!
# Drone route optimization: shallow embedding and verification

This file embeds the combinatorial assignment engine of the drone route
optimization program (`code.py`) in Lean 4 and proves properties of it.

Conventions of the embedding:
* pandas DataFrames become lists of records, preserving row order
  (DataFrame filtering with a boolean mask keeps rows in their original
  order, which `List.filter` also does);
* numeric quantities (coordinates, deadlines, weights, payloads,
  distances, speeds) are rationals `ℚ`;
* the integer sentinel `0` that marks an idle drone in a candidate tuple
  becomes `Option.none`, a route becomes `Option.some` of its id list;
* the one place where the script can raise (a pandas `KeyError` when the
  route table is empty and therefore has no per-drone columns) is modelled
  with `Except String`.
-/

/-- An order row after preprocessing: the script inserts an `ID` column
numbered from 1 and renames `delivery_x`/`delivery_y`/`deadline`/
`package_weight` to `x`/`y`/`time`/`weight`. -/
structure Order where
  id : ℕ
  x : ℚ
  y : ℚ
  time : ℚ
  weight : ℚ
deriving DecidableEq

/-- A raw order record as it appears in the input JSON, before the `ID`
column is inserted. -/
structure OrderInput where
  delivery_x : ℚ
  delivery_y : ℚ
  deadline : ℚ
  package_weight : ℚ
deriving DecidableEq

/-- A drone row of the fleet: maximum payload, maximum travel distance,
speed and the availability flag. (The inserted `Drone_ID` column only
names the per-drone DataFrame columns; the embedding addresses drones
positionally instead.) -/
structure Drone where
  max_payload : ℚ
  max_dist : ℚ
  speed : ℚ
  available : Bool
deriving DecidableEq

/-- `orders_df`: inserts the `ID` column `range(1, len+1)` and renames the
raw fields. Row order is the input order, ids ascend from 1. -/
def load_orders (raw : List OrderInput) : List Order :=
  List.zipWith
    (fun i r => ⟨i + 1, r.delivery_x, r.delivery_y, r.deadline, r.package_weight⟩)
    (List.range raw.length) raw

/-- `drones_df = drones_df[drones_df['available']]`: keep only available
drones, preserving order. -/
def load_drones (fleet : List Drone) : List Drone :=
  fleet.filter (fun d => d.available)

/-- `order_ids = orders_df['ID'].tolist()`. -/
def order_ids (orders : List Order) : List ℕ :=
  orders.map (fun o => o.id)

/-- A route: an ordered sequence of order ids (a permutation of some
non-empty combination of `order_ids`). -/
abbrev Route := List ℕ

/-- `all_combos_perms`: for r in 1..n, for each combination of `order_ids`
of size r, all permutations of that combination.  `itertools.combinations`
enumerates exactly the length-r subsequences of the id list
(`List.sublistsLen r`), and `itertools.permutations` all reorderings
(`List.permutations'`, the structurally recursive enumeration of all
permutations); the enumeration order differs but the collection of
produced routes is the same. -/
def all_combos_perms (ids : List ℕ) : List Route :=
  (List.range ids.length).flatMap
    (fun i => (ids.sublistsLen (i + 1)).flatMap List.permutations')

/-- `orders_df.loc[orders_df['ID'] == order, c].values[0]`: the first row
whose id matches (row lookups in the script always resolve because routes
are drawn from `order_ids`; the default is never reached there). -/
def lookup_order (orders : List Order) (oid : ℕ) : Order :=
  (orders.filter (fun o => o.id == oid)).headD ⟨0, 0, 0, 0, 0⟩

/-- `dist_list`: the (x, y) coordinates of the route's orders, in route
order. -/
def dist_list (orders : List Order) (combo : Route) : List (ℚ × ℚ) :=
  combo.map (fun oid => ((lookup_order orders oid).x, (lookup_order orders oid).y))

/-- Python's `abs` on a rational value, written out so that it computes. -/
def rat_abs (q : ℚ) : ℚ := if q < 0 then -q else q

/-- Manhattan distance of a point from the depot at the origin:
`abs(x) + abs(y)`. -/
def manhattan (p : ℚ × ℚ) : ℚ := rat_abs p.1 + rat_abs p.2

/-- `distance_list`: Manhattan distance of every stop from the depot. -/
def distance_list (ps : List (ℚ × ℚ)) : List ℚ :=
  ps.map manhattan

/-- The consecutive-leg distances `abs(x2-x1) + abs(y2-y1)` for i from 0
to len-2 (the loop body of the `relative_distance` computation). -/
def leg_distances : List (ℚ × ℚ) → List ℚ
  | [] => []
  | [_] => []
  | p :: q :: rest => (rat_abs (q.1 - p.1) + rat_abs (q.2 - p.2)) :: leg_distances (q :: rest)

/-- `relative_distance`: first entry is the depot distance of the first
stop, then the consecutive-leg distances.  (The script indexes
`dist_list[0]`, so it is only ever applied to non-empty routes; the `[]`
clause is unreachable there.) -/
def relative_distance (ps : List (ℚ × ℚ)) : List ℚ :=
  match ps with
  | [] => []
  | p :: _ => manhattan p :: leg_distances ps

/-- The running-sum loop of `cumulative_distance`, carrying the current
partial sum. -/
def cumulative_aux (acc : ℚ) : List ℚ → List ℚ
  | [] => [acc]
  | d :: ds => acc :: cumulative_aux (acc + d) ds

/-- `cumulative_distance`: progressive sums of `relative_distance`. -/
def cumulative_distance : List ℚ → List ℚ
  | [] => []
  | d :: ds => cumulative_aux d ds

/-- `total_distance = cumulative_distance[-1] + abs(x_last) + abs(y_last)`:
round trip = cumulative distance at the last stop plus its depot distance.
(Both `[-1]` indexings are modelled with a default that is never reached on
the non-empty routes the script builds.) -/
def total_distance (ps : List (ℚ × ℚ)) : ℚ :=
  (cumulative_distance (relative_distance ps)).getLastD 0 +
    manhattan ((ps.getLastD (0, 0)))

/-- `total_weight = sum(orders_df.loc[orders_df['ID'].isin(combo),
'weight'])`: the mask keeps matching rows in DataFrame order. -/
def total_weight (orders : List Order) (combo : Route) : ℚ :=
  ((orders.filter (fun o => decide (o.id ∈ combo))).map (fun o => o.weight)).sum

/-- `time_list = orders_df.loc[orders_df['ID'].isin(combo),
'time'].tolist()`: the deadlines of the route's member orders **in
DataFrame (ascending-id) order**, not in route order — `.isin` filtering
keeps the DataFrame's own row order. -/
def time_list (orders : List Order) (combo : Route) : List ℚ :=
  (orders.filter (fun o => decide (o.id ∈ combo))).map (fun o => o.time)

/-- `weight_check = 1 if total_weight <= max_payload else 0`. -/
def weight_check (orders : List Order) (combo : Route) (d : Drone) : Bool :=
  decide (total_weight orders combo ≤ d.max_payload)

/-- `distance_check = 1 if total_distance <= max_dist else 0`. -/
def distance_check (orders : List Order) (combo : Route) (d : Drone) : Bool :=
  decide (total_distance (dist_list orders combo) ≤ d.max_dist)

/-- One element of the deadline check: `time >= cum_dist / speed`.  The
operands are numpy scalars, so division by a zero speed does not raise: it
yields `inf` when `cum_dist > 0`, `nan` when `cum_dist = 0` and `-inf`
when `cum_dist < 0`, and a (finite) `time` compares `>=` as false against
`inf` and `nan` and true against `-inf`.  The `speed = 0` branch encodes
exactly those three float outcomes; for a nonzero speed rational and float
division agree. -/
def time_ok (speed time cum : ℚ) : Bool :=
  if speed = 0 then decide (cum < 0) else decide (time ≥ cum / speed)

/-- `delivery_time_check = 1 if all(time >= cum_dist / speed for time,
cum_dist in zip(time_list, cumulative_distance)) else 0`. -/
def delivery_time_check (orders : List Order) (combo : Route) (d : Drone) : Bool :=
  ((time_list orders combo).zip
      (cumulative_distance (relative_distance (dist_list orders combo)))).all
    (fun tc => time_ok d.speed tc.1 tc.2)

/-- `overall_check = 1 if (weight_check and distance_check and
delivery_time_check) else 0`. -/
def overall_check (orders : List Order) (combo : Route) (d : Drone) : Bool :=
  weight_check orders combo d && distance_check orders combo d &&
    delivery_time_check orders combo d

/-- A drone's entry in an assignment tuple: `some` route, or `none` for
the `0` idle placeholder. -/
abbrev Candidate := Option Route

/-- An assignment tuple: one candidate per available drone, in fleet
order. -/
abbrev AssignmentTuple := List Candidate

/-- `combos_lists`: for each drone, the routes with
`drone_d_overall == 1`, plus the idle placeholder.  The script reads the
column `drone_d_overall` of `order_data_df`; when the route table is
empty (zero orders) that DataFrame has no columns at all and the column
access raises a `KeyError` on the first available drone, which the
embedding surfaces as `Except.error`. -/
def combos_lists (orders : List Order) (drones : List Drone) :
    Except String (List (List Candidate)) :=
  if (all_combos_perms (order_ids orders)).isEmpty && !drones.isEmpty then
    Except.error "KeyError: drone_overall column absent from empty route table"
  else
    Except.ok (drones.map (fun d =>
      ((all_combos_perms (order_ids orders)).filter
          (fun c => overall_check orders c d)).map some ++ [none]))

/-- `all_combinations = list(product(*combos_lists))`: every choice of one
candidate per drone (`List.sections` produces the same tuples as
`itertools.product`, in a different enumeration order). -/
def all_combinations (ls : List (List Candidate)) : List AssignmentTuple :=
  ls.sections

/-- The inner loop of `is_valid_combination`: add a route's orders to the
running set, failing on the first order already seen. -/
def add_orders : Route → List ℕ → Option (List ℕ)
  | [], seen => some seen
  | o :: os, seen => if o ∈ seen then none else add_orders os (o :: seen)

/-- The outer loop of `is_valid_combination`, carrying the running set of
used order ids. -/
def valid_aux : AssignmentTuple → List ℕ → Bool
  | [], _ => true
  | none :: rest, seen => valid_aux rest seen
  | some c :: rest, seen =>
      match add_orders c seen with
      | none => false
      | some seen2 => valid_aux rest seen2

/-- `is_valid_combination`: walk the tuple accumulating used order ids,
rejecting the tuple if any order repeats. -/
def is_valid_combination (t : AssignmentTuple) : Bool :=
  valid_aux t []

/-- `valid_combinations = [c for c in all_combinations if
is_valid_combination(c)]`, downstream of the fallible `combos_lists`. -/
def valid_combinations (orders : List Order) (drones : List Drone) :
    Except String (List AssignmentTuple) :=
  Except.map (fun ls => (all_combinations ls).filter is_valid_combination)
    (combos_lists orders drones)

/-- `get_last_value`: last element of a list, `0` for the scalar `0` an
idle drone carries. -/
def get_last_value (l : List ℚ) : ℚ := l.getLastD 0

/-- One drone's `total_time` column: last cumulative distance (0 when
idle) divided by its speed.  For an idle drone this is `0 / speed`; numpy
makes that `nan` when the speed is 0, but `DataFrame.sum(axis=1)` skips
`nan`, so its contribution to `Total_Time` is 0 — the same value `ℚ`
division by zero gives.  (A non-idle candidate with speed 0 never occurs
in a valid row: such a drone has no feasible route.) -/
def drone_total_time (orders : List Order) (d : Drone) (c : Candidate) : ℚ :=
  (match c with
   | none => 0
   | some combo =>
       get_last_value (cumulative_distance (relative_distance (dist_list orders combo)))) /
    d.speed

/-- `Total_Time`: sum of the per-drone total times of a row. -/
def total_time_row (orders : List Order) (drones : List Drone)
    (t : AssignmentTuple) : ℚ :=
  ((drones.zip t).map (fun dc => drone_total_time orders dc.1 dc.2)).sum

/-- The union of a tuple's routes (`combo_orders` accumulation: idle
entries are skipped, routes contribute their ids). -/
def covered_orders (t : AssignmentTuple) : List ℕ :=
  t.flatMap (fun c => c.getD [])

/-- `check_all_orders_present`: the covered set equals the full order-id
set (set equality, decided by mutual inclusion). -/
def check_all_orders_present (orders : List Order) (t : AssignmentTuple) : Bool :=
  (order_ids orders).all (fun i => (covered_orders t).contains i) &&
    (covered_orders t).all (fun i => (order_ids orders).contains i)

/-- `count_orders`: `len(set(...))`, the number of distinct covered order
ids. -/
def count_orders (t : AssignmentTuple) : ℕ :=
  (covered_orders t).dedup.length

/-- `nsmallest(1, "Total_Time")`: the first row attaining the minimum of
the key.  (The script sorts by `Total_Time` first, which only affects
which of several time-tied rows is kept — a tie-break the spec leaves
unspecified.) -/
def nsmallest1 (key : AssignmentTuple → ℚ) : List AssignmentTuple → Option AssignmentTuple
  | [] => none
  | x :: xs => some (xs.foldl (fun b a => if key a < key b then a else b) x)

/-- `valid_combos_df["count"].max()` over a non-empty column (ℕ maximum,
with 0 for the never-occurring empty case). -/
def max_count (rows : List AssignmentTuple) : ℕ :=
  (rows.map count_orders).foldr max 0

/-- `final_output`: if any row covers all orders, the minimum-time such
row; otherwise the minimum-time row among those with maximal order
count. -/
def final_output (orders : List Order) (drones : List Drone)
    (rows : List AssignmentTuple) : Option AssignmentTuple :=
  if rows.any (check_all_orders_present orders) then
    nsmallest1 (total_time_row orders drones)
      (rows.filter (check_all_orders_present orders))
  else
    nsmallest1 (total_time_row orders drones)
      (rows.filter (fun t => count_orders t == max_count rows))

/-- Manhattan distance between two points: `abs dx + abs dy`. -/
def manhattan_between (p q : ℚ × ℚ) : ℚ := rat_abs (p.1 - q.1) + rat_abs (p.2 - q.2)

/-- Modelled from the spec: "its ordered deadline list (deadlines of
member orders in route order)" — what `time_list` would be if the
deadlines were taken in route (delivery) order instead of DataFrame
order. -/
def time_list_route_order (orders : List Order) (combo : Route) : List ℚ :=
  combo.map (fun oid => (lookup_order orders oid).time)

/-- Modelled from the spec: the deadline-feasibility check with the
deadlines taken in route order, as §3/§4.2 of the spec describe it. -/
def delivery_time_check_route_order (orders : List Order) (combo : Route)
    (d : Drone) : Bool :=
  ((time_list_route_order orders combo).zip
      (cumulative_distance (relative_distance (dist_list orders combo)))).all
    (fun tc => time_ok d.speed tc.1 tc.2)

/-- C8: the computed round-trip distance is the cumulative distance at the
last stop plus the Manhattan distance from the last stop back to the
depot, and a single-order route's total distance is twice its
distance-from-depot. -/
theorem total_distance_round_trip (ps : List (ℚ × ℚ)) (h : ps ≠ []) :
    total_distance ps =
      (cumulative_distance (relative_distance ps)).getLastD 0 +
        manhattan_between (ps.getLastD (0, 0)) (0, 0) ∧
    ∀ p : ℚ × ℚ, total_distance [p] = 2 * manhattan p := by
  constructor
  · simp [total_distance, manhattan, manhattan_between]
  · intro p
    simp [total_distance, relative_distance, leg_distances, cumulative_distance,
      cumulative_aux, manhattan, manhattan_between]
    ring

/-- Witness for C8 at the single stop (3, 4). -/
theorem total_distance_round_trip_witness :
    ([((3 : ℚ), (4 : ℚ))] ≠ ([] : List (ℚ × ℚ))) ∧
    (total_distance [((3 : ℚ), (4 : ℚ))] =
      (cumulative_distance (relative_distance [((3 : ℚ), (4 : ℚ))])).getLastD 0 +
        manhattan_between (([((3 : ℚ), (4 : ℚ))]).getLastD (0, 0)) (0, 0) ∧
    ∀ p : ℚ × ℚ, total_distance [p] = 2 * manhattan p) :=
  ⟨List.cons_ne_nil _ _,
    total_distance_round_trip [((3 : ℚ), (4 : ℚ))] (List.cons_ne_nil _ _)⟩

/-- C10: two routes that are permutations of each other have the same
total weight, hence the same weight-check verdict for every drone. -/
theorem total_weight_perm_invariant (orders : List Order) (r1 r2 : Route)
    (hp : r1.Perm r2) :
    total_weight orders r1 = total_weight orders r2 ∧
    ∀ d : Drone, weight_check orders r1 d = weight_check orders r2 d := by
  have hfilter : orders.filter (fun o => decide (o.id ∈ r1)) =
      orders.filter (fun o => decide (o.id ∈ r2)) := by
    refine List.filter_congr (fun o _ => ?_)
    exact decide_eq_decide.mpr hp.mem_iff
  constructor
  · rw [total_weight, total_weight, hfilter]
  · intro d
    rw [weight_check, weight_check, total_weight, total_weight, hfilter]

/-- Witness for C10 on the two orderings of the pair {1, 2}. -/
theorem total_weight_perm_invariant_witness :
    ([1, 2] : Route).Perm [2, 1] ∧
    (total_weight (load_orders [⟨1, 2, 3, 4⟩, ⟨5, 6, 7, 8⟩]) [1, 2] =
      total_weight (load_orders [⟨1, 2, 3, 4⟩, ⟨5, 6, 7, 8⟩]) [2, 1] ∧
    ∀ d : Drone,
      weight_check (load_orders [⟨1, 2, 3, 4⟩, ⟨5, 6, 7, 8⟩]) [1, 2] d =
        weight_check (load_orders [⟨1, 2, 3, 4⟩, ⟨5, 6, 7, 8⟩]) [2, 1] d) :=
  ⟨by decide, total_weight_perm_invariant _ [1, 2] [2, 1] (by decide)⟩

/-- C1: the deadline list the script's check uses is in DataFrame
(ascending-id) order, not route order.  With orders 1:(5,0) deadline 6 and
2:(1,0) deadline 1, the route (2, 1) has cumulative distances [1, 5]; the
script pairs them with deadlines [6, 1] and rejects the route, while the
route-order pairing [1, 6] accepts it. -/
theorem deadline_order_mismatch :
    time_list (load_orders [⟨5, 0, 6, 1⟩, ⟨1, 0, 1, 1⟩]) [2, 1] = [6, 1] ∧
    time_list_route_order (load_orders [⟨5, 0, 6, 1⟩, ⟨1, 0, 1, 1⟩]) [2, 1] = [1, 6] ∧
    cumulative_distance (relative_distance
        (dist_list (load_orders [⟨5, 0, 6, 1⟩, ⟨1, 0, 1, 1⟩]) [2, 1])) = [1, 5] ∧
    delivery_time_check (load_orders [⟨5, 0, 6, 1⟩, ⟨1, 0, 1, 1⟩]) [2, 1]
      ⟨10, 100, 1, true⟩ = false ∧
    delivery_time_check_route_order (load_orders [⟨5, 0, 6, 1⟩, ⟨1, 0, 1, 1⟩]) [2, 1]
      ⟨10, 100, 1, true⟩ = true := by
  norm_num [time_list, time_list_route_order, load_orders, lookup_order, dist_list,
    delivery_time_check, delivery_time_check_route_order, relative_distance,
    leg_distances, cumulative_distance, cumulative_aux, manhattan, rat_abs, time_ok,
    List.range, List.range.loop]

/-- C3: with zero orders the route table is empty, so its DataFrame has no
columns and the per-drone `overall` column access raises `KeyError` as
soon as one available drone is iterated — the all-idle result is never
produced. -/
theorem zero_orders_key_error :
    all_combos_perms (order_ids (load_orders [])) = [] ∧
    combos_lists (load_orders []) [⟨5, 100, 1, true⟩] =
      Except.error "KeyError: drone_overall column absent from empty route table" := by
  exact ⟨rfl, rfl⟩

/-- The running set returned by a successful `add_orders` holds exactly
the route's ids and the previously seen ones, and success means no id of
the route was seen before. -/
theorem add_orders_mem {c : Route} {seen s2 : List ℕ}
    (h : add_orders c seen = some s2) :
    (∀ x, x ∈ s2 ↔ x ∈ c ∨ x ∈ seen) ∧ ∀ x ∈ c, x ∉ seen := by
  induction c generalizing seen with
  | nil =>
    simp only [add_orders, Option.some.injEq] at h
    subst h
    simp
  | cons o os ih =>
    by_cases ho : o ∈ seen
    · simp [add_orders, ho] at h
    · simp only [add_orders, if_neg ho] at h
      obtain ⟨hmem, hnot⟩ := ih h
      constructor
      · intro x
        rw [hmem x]
        simp only [List.mem_cons]
        tauto
      · intro x hx
        rcases List.mem_cons.mp hx with rfl | hx2
        · exact ho
        · intro hxseen
          exact hnot x hx2 (List.mem_cons_of_mem _ hxseen)

/-- Soundness of the running-set walk: a tuple accepted by `valid_aux` has
pairwise-disjoint route id sets, all of them also disjoint from `seen`. -/
theorem valid_aux_pairwise {t : AssignmentTuple} {seen : List ℕ}
    (h : valid_aux t seen = true) :
    t.Pairwise (fun a b => ∀ x ∈ a.getD [], x ∉ b.getD []) ∧
      ∀ c ∈ t, ∀ x ∈ c.getD [], x ∉ seen := by
  induction t generalizing seen with
  | nil => simp
  | cons hd rest ih =>
    match hd with
    | none =>
      simp only [valid_aux] at h
      obtain ⟨hp, hs⟩ := ih h
      refine ⟨List.Pairwise.cons ?_ hp, ?_⟩
      · intro b hb x hx
        simp at hx
      · intro c hc x hx
        rcases List.mem_cons.mp hc with rfl | hc2
        · simp at hx
        · exact hs c hc2 x hx
    | some c =>
      simp only [valid_aux] at h
      cases hao : add_orders c seen with
      | none => rw [hao] at h; simp at h
      | some s2 =>
        rw [hao] at h
        obtain ⟨hmem, hnotseen⟩ := add_orders_mem hao
        obtain ⟨hp, hs⟩ := ih h
        refine ⟨List.Pairwise.cons ?_ hp, ?_⟩
        · intro b hb x hx hxb
          exact hs b hb x hxb ((hmem x).mpr (Or.inl hx))
        · intro cc hcc x hx
          rcases List.mem_cons.mp hcc with rfl | hc2
          · exact hnotseen x hx
          · intro hxseen
            exact hs cc hc2 x hx ((hmem x).mpr (Or.inr hxseen))

/-- The all-idle tuple passes the walk from any starting set. -/
theorem valid_aux_replicate_none : ∀ (n : ℕ) (seen : List ℕ),
    valid_aux (List.replicate n (none : Candidate)) seen = true
  | 0, _ => rfl
  | n + 1, seen => valid_aux_replicate_none n seen

/-- A successful `combos_lists` is the per-drone feasible lists plus the
idle sentinel. -/
theorem combos_lists_ok {orders : List Order} {drones : List Drone}
    {ls : List (List Candidate)}
    (h : combos_lists orders drones = Except.ok ls) :
    ls = drones.map (fun d =>
      ((all_combos_perms (order_ids orders)).filter
          (fun c => overall_check orders c d)).map some ++ [none]) := by
  rw [combos_lists] at h
  by_cases hc : (all_combos_perms (order_ids orders)).isEmpty && !drones.isEmpty
  · rw [if_pos hc] at h
    cases h
  · rw [if_neg hc] at h
    exact (Except.ok.inj h).symm

/-- A successful `valid_combinations` is the filtered cross product of the
per-drone candidate lists. -/
theorem valid_combinations_ok {orders : List Order} {drones : List Drone}
    {rows : List AssignmentTuple}
    (h : valid_combinations orders drones = Except.ok rows) :
    rows = (all_combinations (drones.map (fun d =>
      ((all_combos_perms (order_ids orders)).filter
          (fun c => overall_check orders c d)).map some ++ [none]))).filter
        is_valid_combination := by
  rw [valid_combinations] at h
  cases hcl : combos_lists orders drones with
  | error e => rw [hcl] at h; cases h
  | ok ls =>
    rw [hcl] at h
    rw [← combos_lists_ok hcl]
    exact (Except.ok.inj h).symm

/-- The all-idle tuple is one of the sections of any list of candidate
lists that all contain the idle sentinel. -/
theorem all_idle_mem_sections (ls : List (List Candidate))
    (h : ∀ l ∈ ls, (none : Candidate) ∈ l) :
    List.replicate ls.length (none : Candidate) ∈ all_combinations ls := by
  rw [all_combinations, List.mem_sections]
  induction ls with
  | nil => simp
  | cons a ls ih =>
    simp only [List.length_cons, List.replicate_succ]
    exact List.Forall₂.cons (h a (by simp))
      (ih (fun l hl => h l (by simp [hl])))

/-- The all-idle tuple survives into every successful valid-combination
list. -/
theorem all_idle_mem_valid {orders : List Order} {drones : List Drone}
    {rows : List AssignmentTuple}
    (h : valid_combinations orders drones = Except.ok rows) :
    List.replicate drones.length (none : Candidate) ∈ rows := by
  rw [valid_combinations_ok h]
  rw [List.mem_filter]
  constructor
  · have := all_idle_mem_sections (drones.map (fun d =>
      ((all_combos_perms (order_ids orders)).filter
          (fun c => overall_check orders c d)).map some ++ [none]))
      (by intro l hl
          obtain ⟨d, _, rfl⟩ := List.mem_map.mp hl
          exact List.mem_append_right _ (by simp))
    rwa [List.length_map] at this
  · exact valid_aux_replicate_none drones.length []

/-- C9: every tuple surviving the validity filter has pairwise-disjoint
covered-order sets across drones; the all-idle tuple always passes the
filter; hence the valid-assignment set is non-empty whenever at least one
drone is available. -/
theorem valid_assignments_disjoint (orders : List Order) (drones : List Drone)
    (rows : List AssignmentTuple)
    (hok : valid_combinations orders drones = Except.ok rows)
    (hd : drones ≠ []) :
    (∀ t ∈ rows, t.Pairwise (fun a b => ∀ x ∈ a.getD [], x ∉ b.getD [])) ∧
    (∀ n : ℕ, is_valid_combination (List.replicate n (none : Candidate)) = true) ∧
    List.replicate drones.length (none : Candidate) ∈ rows ∧
    rows ≠ [] := by
  refine ⟨?_, fun n => valid_aux_replicate_none n [],
    all_idle_mem_valid hok, List.ne_nil_of_mem (all_idle_mem_valid hok)⟩
  intro t ht
  rw [valid_combinations_ok hok] at ht
  exact (valid_aux_pairwise (List.mem_filter.mp ht).2).1

/-- Membership in the generated route list: exactly the reorderings of the
non-empty subsequences of the id list. -/
theorem mem_all_combos_perms {ids : List ℕ} {r : Route} :
    r ∈ all_combos_perms ids ↔ ∃ c, c.Sublist ids ∧ c ≠ [] ∧ r.Perm c := by
  constructor
  · intro h
    rw [all_combos_perms] at h
    obtain ⟨i, _, hr⟩ := List.mem_flatMap.mp h
    obtain ⟨c, hc, hrc⟩ := List.mem_flatMap.mp hr
    obtain ⟨hsub, hlen⟩ := List.mem_sublistsLen.mp hc
    refine ⟨c, hsub, ?_, List.mem_permutations'.mp hrc⟩
    intro hnil
    rw [hnil] at hlen
    simp at hlen
  · rintro ⟨c, hsub, hne, hperm⟩
    rw [all_combos_perms]
    have h1 : 1 ≤ c.length := List.length_pos.mpr hne
    have h2 : c.length ≤ ids.length := hsub.length_le
    refine List.mem_flatMap.mpr ⟨c.length - 1, ?_, ?_⟩
    · rw [List.mem_range]
      omega
    · refine List.mem_flatMap.mpr ⟨c, ?_, List.mem_permutations'.mpr hperm⟩
      rw [List.mem_sublistsLen]
      exact ⟨hsub, by omega⟩

/-- `rat_abs` is non-negative. -/
theorem rat_abs_nonneg (q : ℚ) : 0 ≤ rat_abs q := by
  rw [rat_abs]
  split <;> linarith

/-- The running-sum list starts with its accumulator. -/
theorem cumulative_aux_cons (acc : ℚ) (ds : List ℚ) :
    ∃ l, cumulative_aux acc ds = acc :: l := by
  cases ds <;> simp [cumulative_aux]


/-- C4: a drone with speed 0 fails the deadline check on every generated
route (numpy turns the division by zero into `inf`/`nan`, against which
the comparison is false), so in every tuple surviving the validity filter
that drone's entry is the idle sentinel. -/
theorem speed_zero_drone_idle (orders : List Order) (drones : List Drone)
    (i : ℕ) (hi : i < drones.length)
    (hspeed : (drones.get ⟨i, hi⟩).speed = 0) :
    (∀ r ∈ all_combos_perms (order_ids orders),
        delivery_time_check orders r (drones.get ⟨i, hi⟩) = false) ∧
    ∀ rows, valid_combinations orders drones = Except.ok rows →
      ∀ t ∈ rows, ∀ (ht : i < t.length), t.get ⟨i, ht⟩ = none := by
  have hfail : ∀ r ∈ all_combos_perms (order_ids orders),
      delivery_time_check orders r (drones.get ⟨i, hi⟩) = false := by
    intro r hr
    obtain ⟨c, hsub, hne, hperm⟩ := mem_all_combos_perms.mp hr
    obtain ⟨x0, r', rfl⟩ : ∃ a l, r = a :: l := by
      cases r with
      | nil => exact absurd hperm.nil_eq.symm hne
      | cons a l => exact ⟨a, l, rfl⟩
    have hx0 : x0 ∈ order_ids orders :=
      hsub.subset (hperm.subset (List.mem_cons_self x0 r'))
    obtain ⟨o, ho, hoid⟩ := List.mem_map.mp hx0
    have hfil : o ∈ orders.filter (fun o => decide (o.id ∈ x0 :: r')) :=
      List.mem_filter.mpr ⟨ho, by simp [hoid]⟩
    have htl : time_list orders (x0 :: r') ≠ [] := by
      rw [time_list]
      intro hemp
      rw [List.map_eq_nil_iff] at hemp
      exact List.ne_nil_of_mem hfil hemp
    obtain ⟨t0, tl2, htl2⟩ := List.exists_cons_of_ne_nil htl
    have hdl : dist_list orders (x0 :: r') =
        ((lookup_order orders x0).x, (lookup_order orders x0).y) ::
          dist_list orders r' := rfl
    obtain ⟨l2, hl2⟩ := cumulative_aux_cons
      (manhattan ((lookup_order orders x0).x, (lookup_order orders x0).y))
      (leg_distances (((lookup_order orders x0).x, (lookup_order orders x0).y) ::
        dist_list orders r'))
    have hcum : cumulative_distance (relative_distance
        (dist_list orders (x0 :: r'))) =
        manhattan ((lookup_order orders x0).x, (lookup_order orders x0).y) :: l2 := by
      rw [hdl]
      simp only [relative_distance, cumulative_distance]
      exact hl2
    rw [delivery_time_check, htl2, hcum, List.zip_cons_cons, List.all_cons, hspeed]
    have hnn : ¬ (manhattan ((lookup_order orders x0).x,
        (lookup_order orders x0).y) < 0) := by
      rw [manhattan]
      have := rat_abs_nonneg ((lookup_order orders x0).x,
        (lookup_order orders x0).y).1
      have := rat_abs_nonneg ((lookup_order orders x0).x,
        (lookup_order orders x0).y).2
      intro hlt
      linarith
    rw [time_ok, if_pos rfl]
    simp [hnn]
  refine ⟨hfail, ?_⟩
  intro rows hok t ht hti
  rw [valid_combinations_ok hok] at ht
  have hsec := (List.mem_filter.mp ht).1
  rw [all_combinations] at hsec
  have hforall := List.mem_sections.mp hsec
  obtain ⟨hlen, hget⟩ := List.forall₂_iff_get.mp hforall
  have hlt2 : i < (drones.map (fun d =>
      ((all_combos_perms (order_ids orders)).filter
          (fun c => overall_check orders c d)).map some ++ [none])).length := by
    rw [List.length_map]
    exact hi
  have hmem := hget i hti hlt2
  have hfilter_nil : (all_combos_perms (order_ids orders)).filter
      (fun c => overall_check orders c (drones.get ⟨i, hi⟩)) = [] := by
    rw [List.filter_eq_nil_iff]
    intro r hr
    rw [overall_check, hfail r hr]
    simp
  have hmap : (drones.map (fun d =>
      ((all_combos_perms (order_ids orders)).filter
          (fun c => overall_check orders c d)).map some ++ [none])).get ⟨i, hlt2⟩ =
      ((all_combos_perms (order_ids orders)).filter
          (fun c => overall_check orders c (drones.get ⟨i, hi⟩))).map some ++ [none] := by
    simp [List.get_eq_getElem, List.getElem_map]
  rw [hmap, hfilter_nil] at hmem
  simpa using hmem

/-- Witness for C4: one order at (3, 4) and a single available drone of
speed 0; the deadline check fails on every route and the drone is idle in
every valid tuple. -/
theorem speed_zero_drone_idle_witness :
    ((⟨5, 20, 0, true⟩ : Drone).speed = 0) ∧
    ((∀ r ∈ all_combos_perms (order_ids (load_orders [⟨3, 4, 10, 2⟩])),
        delivery_time_check (load_orders [⟨3, 4, 10, 2⟩]) r ⟨5, 20, 0, true⟩ = false) ∧
      ∀ rows, valid_combinations (load_orders [⟨3, 4, 10, 2⟩]) [⟨5, 20, 0, true⟩] =
          Except.ok rows →
        ∀ t ∈ rows, ∀ (ht : 0 < t.length), t.get ⟨0, ht⟩ = none) :=
  ⟨rfl, speed_zero_drone_idle (load_orders [⟨3, 4, 10, 2⟩]) [⟨5, 20, 0, true⟩] 0
    (by decide) rfl⟩

/-- Witness for C9: one order at (3, 4), one available drone that can
serve it; the valid set is the two tuples `[(1,)]` and `[idle]`. -/
theorem valid_assignments_disjoint_witness :
    (valid_combinations (load_orders [⟨3, 4, 10, 2⟩]) [⟨5, 20, 1, true⟩] =
        Except.ok [[some [1]], [none]]) ∧
    ([(⟨5, 20, 1, true⟩ : Drone)] ≠ []) ∧
    ((∀ t ∈ [[some [1]], [(none : Candidate)]],
        t.Pairwise (fun a b => ∀ x ∈ a.getD [], x ∉ b.getD [])) ∧
      (∀ n : ℕ, is_valid_combination (List.replicate n (none : Candidate)) = true) ∧
      List.replicate (List.length [(⟨5, 20, 1, true⟩ : Drone)]) (none : Candidate) ∈
        [[some [1]], [(none : Candidate)]] ∧
      ([[some [1]], [(none : Candidate)]] : List AssignmentTuple) ≠ []) := by
  have h1 : valid_combinations (load_orders [⟨3, 4, 10, 2⟩]) [⟨5, 20, 1, true⟩] =
      Except.ok [[some [1]], [none]] := by
    norm_num [valid_combinations, combos_lists, all_combos_perms, order_ids, load_orders,
      List.range_succ, List.permutations', List.permutations'Aux, overall_check,
      weight_check, distance_check, delivery_time_check, total_weight, total_distance,
      time_list, dist_list, lookup_order, manhattan, rat_abs, relative_distance,
      leg_distances, cumulative_distance, cumulative_aux, time_ok, all_combinations,
      List.sections, is_valid_combination, valid_aux, add_orders, Except.map]
  exact ⟨h1, by simp,
    valid_assignments_disjoint (load_orders [⟨3, 4, 10, 2⟩]) [⟨5, 20, 1, true⟩]
      [[some [1]], [none]] h1 (by simp)⟩

/-- The fold inside `nsmallest1` returns an element of the list whose key
is minimal. -/
theorem foldl_min_spec {α : Type} (key : α → ℚ) :
    ∀ (xs : List α) (x : α),
      (xs.foldl (fun b a => if key a < key b then a else b) x ∈ x :: xs) ∧
      ∀ y ∈ x :: xs,
        key (xs.foldl (fun b a => if key a < key b then a else b) x) ≤ key y
  | [], x => ⟨by simp, by simp⟩
  | a :: xs, x => by
    obtain ⟨ihm, ihle⟩ := foldl_min_spec key xs (if key a < key x then a else x)
    rw [List.foldl_cons]
    constructor
    · rcases List.mem_cons.mp ihm with he | hxs
      · rw [he]
        split
        · exact List.mem_cons_of_mem _ (List.mem_cons_self _ _)
        · exact List.mem_cons_self _ _
      · exact List.mem_cons_of_mem _ (List.mem_cons_of_mem _ hxs)
    · intro y hy
      rcases List.mem_cons.mp hy with rfl | hy2
      · refine le_trans (ihle _ (List.mem_cons_self _ _)) ?_
        split
        · next h => exact le_of_lt h
        · exact le_refl _
      rcases List.mem_cons.mp hy2 with rfl | hy3
      · refine le_trans (ihle _ (List.mem_cons_self _ _)) ?_
        split
        · exact le_refl _
        · next h => exact not_lt.mp h
      · exact ihle _ (List.mem_cons_of_mem _ hy3)

/-- `nsmallest1` on a non-empty list returns a member attaining the
minimal key. -/
theorem nsmallest1_spec (key : AssignmentTuple → ℚ)
    (l : List AssignmentTuple) (hne : l ≠ []) :
    ∃ m, nsmallest1 key l = some m ∧ m ∈ l ∧ ∀ x ∈ l, key m ≤ key x := by
  match l with
  | [] => exact absurd rfl hne
  | x :: xs =>
    obtain ⟨hm, hle⟩ := foldl_min_spec key xs x
    exact ⟨_, rfl, hm, hle⟩

/-- Every element is bounded by the `foldr max 0` of its list. -/
theorem le_foldr_max (l : List ℕ) : ∀ x ∈ l, x ≤ l.foldr max 0 := by
  induction l with
  | nil => simp
  | cons a l ih =>
    intro x hx
    rw [List.foldr_cons]
    rcases List.mem_cons.mp hx with rfl | h2
    · exact le_max_left _ _
    · exact le_trans (ih x h2) (le_max_right _ _)

/-- On a non-empty list of naturals the `foldr max 0` is attained. -/
theorem foldr_max_mem (l : List ℕ) (hne : l ≠ []) : l.foldr max 0 ∈ l := by
  induction l with
  | nil => exact absurd rfl hne
  | cons a l ih =>
    cases l with
    | nil => simp
    | cons b l2 =>
      rw [List.foldr_cons]
      rcases max_choice a (List.foldr max 0 (b :: l2)) with he | he <;> rw [he]
      · exact List.mem_cons_self _ _
      · exact List.mem_cons_of_mem _ (ih (List.cons_ne_nil _ _))

/-- C5: if some valid tuple covers all orders, the selected tuple covers
all orders and has minimal total time among the full-coverage tuples. -/
theorem selector_full_coverage (orders : List Order) (drones : List Drone)
    (rows : List AssignmentTuple)
    (hok : valid_combinations orders drones = Except.ok rows)
    (hfull : ∃ t ∈ rows, check_all_orders_present orders t = true) :
    ∃ sel, final_output orders drones rows = some sel ∧ sel ∈ rows ∧
      check_all_orders_present orders sel = true ∧
      ∀ t ∈ rows, check_all_orders_present orders t = true →
        total_time_row orders drones sel ≤ total_time_row orders drones t := by
  obtain ⟨t0, ht0, hc0⟩ := hfull
  have hany : rows.any (check_all_orders_present orders) = true :=
    List.any_eq_true.mpr ⟨t0, ht0, hc0⟩
  rw [final_output, if_pos hany]
  have hfne : rows.filter (check_all_orders_present orders) ≠ [] :=
    List.ne_nil_of_mem (List.mem_filter.mpr ⟨ht0, hc0⟩)
  obtain ⟨m, hm, hmem, hmin⟩ := nsmallest1_spec _ _ hfne
  refine ⟨m, hm, (List.mem_filter.mp hmem).1, (List.mem_filter.mp hmem).2, ?_⟩
  intro t ht hc
  exact hmin t (List.mem_filter.mpr ⟨ht, hc⟩)

/-- C6: if no valid tuple covers all orders, the selected tuple attains
the maximal covered-order count and has minimal total time among the
tuples attaining it. -/
theorem selector_max_coverage (orders : List Order) (drones : List Drone)
    (rows : List AssignmentTuple)
    (hok : valid_combinations orders drones = Except.ok rows)
    (hnofull : ∀ t ∈ rows, check_all_orders_present orders t = false) :
    ∃ sel, final_output orders drones rows = some sel ∧ sel ∈ rows ∧
      (∀ t ∈ rows, count_orders t ≤ count_orders sel) ∧
      ∀ t ∈ rows, count_orders t = count_orders sel →
        total_time_row orders drones sel ≤ total_time_row orders drones t := by
  have hne : rows ≠ [] := List.ne_nil_of_mem (all_idle_mem_valid hok)
  have hany : rows.any (check_all_orders_present orders) = false := by
    rw [List.any_eq_false]
    intro t ht
    simp [hnofull t ht]
  have hnot : ¬ (rows.any (check_all_orders_present orders) = true) := by
    rw [hany]
    exact Bool.false_ne_true
  rw [final_output, if_neg hnot]
  have hmc : max_count rows ∈ rows.map count_orders := by
    rw [max_count]
    exact foldr_max_mem _ (by simpa using hne)
  obtain ⟨t1, ht1, hc1⟩ := List.mem_map.mp hmc
  have hfne : rows.filter (fun t => count_orders t == max_count rows) ≠ [] :=
    List.ne_nil_of_mem (List.mem_filter.mpr ⟨ht1, by simp [hc1]⟩)
  obtain ⟨m, hm, hmem, hmin⟩ := nsmallest1_spec _ _ hfne
  have hmrows := (List.mem_filter.mp hmem).1
  have hmcnt : count_orders m = max_count rows := by
    have h2 := (List.mem_filter.mp hmem).2
    simpa using h2
  refine ⟨m, hm, hmrows, ?_, ?_⟩
  · intro t ht
    rw [hmcnt, max_count]
    exact le_foldr_max _ _ (List.mem_map.mpr ⟨t, ht, rfl⟩)
  · intro t ht hcnt
    exact hmin t (List.mem_filter.mpr ⟨ht, by simp [hcnt, hmcnt]⟩)

/-- Witness for C5: with one order and one drone able to serve it, the
selector picks the full-coverage tuple `[(1,)]`. -/
theorem selector_full_coverage_witness :
    (valid_combinations (load_orders [⟨3, 4, 10, 2⟩]) [⟨5, 20, 1, true⟩] =
        Except.ok [[some [1]], [none]]) ∧
    (∃ t ∈ [[some [1]], [(none : Candidate)]],
        check_all_orders_present (load_orders [⟨3, 4, 10, 2⟩]) t = true) ∧
    (∃ sel, final_output (load_orders [⟨3, 4, 10, 2⟩]) [⟨5, 20, 1, true⟩]
          [[some [1]], [none]] = some sel ∧
        sel ∈ [[some [1]], [(none : Candidate)]] ∧
        check_all_orders_present (load_orders [⟨3, 4, 10, 2⟩]) sel = true ∧
        ∀ t ∈ [[some [1]], [(none : Candidate)]],
          check_all_orders_present (load_orders [⟨3, 4, 10, 2⟩]) t = true →
            total_time_row (load_orders [⟨3, 4, 10, 2⟩]) [⟨5, 20, 1, true⟩] sel ≤
              total_time_row (load_orders [⟨3, 4, 10, 2⟩]) [⟨5, 20, 1, true⟩] t) := by
  have h1 : valid_combinations (load_orders [⟨3, 4, 10, 2⟩]) [⟨5, 20, 1, true⟩] =
      Except.ok [[some [1]], [none]] := by
    norm_num [valid_combinations, combos_lists, all_combos_perms, order_ids, load_orders,
      List.range_succ, List.permutations', List.permutations'Aux, overall_check,
      weight_check, distance_check, delivery_time_check, total_weight, total_distance,
      time_list, dist_list, lookup_order, manhattan, rat_abs, relative_distance,
      leg_distances, cumulative_distance, cumulative_aux, time_ok, all_combinations,
      List.sections, is_valid_combination, valid_aux, add_orders, Except.map]
  exact ⟨h1, by decide,
    selector_full_coverage (load_orders [⟨3, 4, 10, 2⟩]) [⟨5, 20, 1, true⟩]
      [[some [1]], [none]] h1 (by decide)⟩

/-- Witness for C6: one order of weight 5 and a drone of payload 1 — no
full coverage exists and the all-idle tuple (count 0) is selected. -/
theorem selector_max_coverage_witness :
    (valid_combinations (load_orders [⟨3, 4, 10, 5⟩]) [⟨1, 20, 1, true⟩] =
        Except.ok [[none]]) ∧
    (∀ t ∈ [[(none : Candidate)]],
        check_all_orders_present (load_orders [⟨3, 4, 10, 5⟩]) t = false) ∧
    (∃ sel, final_output (load_orders [⟨3, 4, 10, 5⟩]) [⟨1, 20, 1, true⟩]
          [[none]] = some sel ∧
        sel ∈ [[(none : Candidate)]] ∧
        (∀ t ∈ [[(none : Candidate)]], count_orders t ≤ count_orders sel) ∧
        ∀ t ∈ [[(none : Candidate)]], count_orders t = count_orders sel →
          total_time_row (load_orders [⟨3, 4, 10, 5⟩]) [⟨1, 20, 1, true⟩] sel ≤
            total_time_row (load_orders [⟨3, 4, 10, 5⟩]) [⟨1, 20, 1, true⟩] t) := by
  have h1 : valid_combinations (load_orders [⟨3, 4, 10, 5⟩]) [⟨1, 20, 1, true⟩] =
      Except.ok [[none]] := by
    norm_num [valid_combinations, combos_lists, all_combos_perms, order_ids, load_orders,
      List.range_succ, List.permutations', List.permutations'Aux, overall_check,
      weight_check, distance_check, delivery_time_check, total_weight, total_distance,
      time_list, dist_list, lookup_order, manhattan, rat_abs, relative_distance,
      leg_distances, cumulative_distance, cumulative_aux, time_ok, all_combinations,
      List.sections, is_valid_combination, valid_aux, add_orders, Except.map]
  exact ⟨h1, by decide,
    selector_max_coverage (load_orders [⟨3, 4, 10, 5⟩]) [⟨1, 20, 1, true⟩]
      [[none]] h1 (by decide)⟩

/-- Two sublists of a duplicate-free list that are permutations of each
other are equal. -/
theorem sublist_eq_of_perm : ∀ {l c1 c2 : List ℕ}, l.Nodup →
    c1.Sublist l → c2.Sublist l → c1.Perm c2 → c1 = c2 := by
  intro l
  induction l with
  | nil =>
    intro c1 c2 _ s1 s2 _
    rw [List.sublist_nil.mp s1, List.sublist_nil.mp s2]
  | cons a l ih =>
    intro c1 c2 hl s1 s2 hp
    have ha : a ∉ l := (List.nodup_cons.mp hl).1
    have hl2 : l.Nodup := (List.nodup_cons.mp hl).2
    cases s1 with
    | cons _ s1' =>
      cases s2 with
      | cons _ s2' => exact ih hl2 s1' s2' hp
      | cons₂ _ s2' =>
        exfalso
        have hac1 : a ∈ c1 := hp.mem_iff.mpr (List.mem_cons_self _ _)
        exact ha (s1'.subset hac1)
    | cons₂ _ s1' =>
      cases s2 with
      | cons _ s2' =>
        exfalso
        have hac2 : a ∈ c2 := hp.mem_iff.mp (List.mem_cons_self _ _)
        exact ha (s2'.subset hac2)
      | cons₂ _ s2' =>
        rw [ih hl2 s1' s2' hp.cons_inv]

/-- List-level range sums coincide with `Finset.range` sums. -/
theorem range_map_sum (f : ℕ → ℕ) (n : ℕ) :
    ((List.range n).map f).sum = ∑ i ∈ Finset.range n, f i := by
  induction n with
  | zero => simp
  | succ n ih =>
    rw [List.range_succ, List.map_append, List.sum_append,
      Finset.sum_range_succ, ih]
    simp

/-- Reindexing a sum over `Icc 1 n` as a sum over `range n`. -/
theorem sum_Icc_one_eq_sum_range (f : ℕ → ℕ) (n : ℕ) :
    ∑ k ∈ Finset.Icc 1 n, f k = ∑ i ∈ Finset.range n, f (i + 1) := by
  induction n with
  | zero => simp
  | succ n ih =>
    rw [Finset.sum_Icc_succ_top (by omega), ih, Finset.sum_range_succ]

/-- The falling factorial as a quotient of factorials. -/
theorem fact_div_fact (n k : ℕ) (hk : k ≤ n) :
    n.factorial / (n - k).factorial = n.choose k * k.factorial := by
  have h := Nat.choose_mul_factorial_mul_factorial hk
  exact Nat.div_eq_of_eq_mul_left (Nat.factorial_pos _) h.symm

/-- Sum of a constant map. -/
theorem map_const_sum (m : ℕ) (L : List (List ℕ)) :
    (L.map (fun _ => m)).sum = L.length * m := by
  induction L with
  | nil => simp
  | cons a L ih =>
    simp only [List.map_cons, List.sum_cons, List.length_cons, ih]
    ring

/-- C7: the route generator is exhaustive and duplicate-free — it yields
Σ k=1..n n!/(n-k)! routes, each a non-empty duplicate-free sequence over
the id set, every such sequence occurs, and none occurs twice. -/
theorem route_generator_exhaustive (ids : List ℕ) (hn : ids.Nodup) :
    (all_combos_perms ids).length =
        ∑ k ∈ Finset.Icc 1 ids.length,
          ids.length.factorial / (ids.length - k).factorial ∧
    (∀ r ∈ all_combos_perms ids, r ≠ [] ∧ r.Nodup ∧ ∀ x ∈ r, x ∈ ids) ∧
    (∀ r : Route, r ≠ [] → r.Nodup → (∀ x ∈ r, x ∈ ids) →
        r ∈ all_combos_perms ids) ∧
    (all_combos_perms ids).Nodup := by
  refine ⟨?_, ?_, ?_, ?_⟩
  · have hperlen : ∀ c : List ℕ,
        (List.permutations' c).length = c.length.factorial := by
      intro c
      rw [← (List.permutations_perm_permutations' c).length_eq]
      exact List.length_permutations c
    have hinner : ∀ i,
        ((ids.sublistsLen (i + 1)).flatMap List.permutations').length =
        Nat.choose ids.length (i + 1) * (i + 1).factorial := by
      intro i
      rw [List.length_flatMap]
      have hmap : (ids.sublistsLen (i + 1)).map
          (List.length ∘ List.permutations') =
          (ids.sublistsLen (i + 1)).map (fun _ => (i + 1).factorial) := by
        refine List.map_congr_left (fun c hc => ?_)
        have hlc : c.length = i + 1 := (List.mem_sublistsLen.mp hc).2
        simp only [Function.comp_apply]
        rw [hperlen c, hlc]
      rw [hmap, map_const_sum, List.length_sublistsLen]
    rw [all_combos_perms, List.length_flatMap]
    have hmap2 : (List.range ids.length).map
        (List.length ∘ fun i => (ids.sublistsLen (i + 1)).flatMap
          List.permutations') =
        (List.range ids.length).map
          (fun i => Nat.choose ids.length (i + 1) * (i + 1).factorial) := by
      refine List.map_congr_left (fun i _ => ?_)
      simpa using hinner i
    rw [hmap2, range_map_sum, sum_Icc_one_eq_sum_range]
    refine Finset.sum_congr rfl (fun i hi => ?_)
    rw [Finset.mem_range] at hi
    exact (fact_div_fact ids.length (i + 1) (by omega)).symm
  · intro r hr
    obtain ⟨c, hsub, hne, hperm⟩ := mem_all_combos_perms.mp hr
    refine ⟨?_, ?_, ?_⟩
    · intro h0
      rw [h0] at hperm
      exact hne hperm.nil_eq.symm
    · exact hperm.symm.nodup (List.Nodup.sublist hsub hn)
    · exact fun x hx => hsub.subset (hperm.subset hx)
  · intro r hne hnod hmem
    refine mem_all_combos_perms.mpr
      ⟨ids.filter (fun x => decide (x ∈ r)), List.filter_sublist _, ?_, ?_⟩
    · obtain ⟨x0, hx0⟩ := List.exists_mem_of_ne_nil r hne
      exact List.ne_nil_of_mem
        (List.mem_filter.mpr ⟨hmem x0 hx0, by simp [hx0]⟩)
    · refine (List.perm_ext_iff_of_nodup hnod (hn.filter _)).mpr (fun a => ?_)
      constructor
      · intro ha
        exact List.mem_filter.mpr ⟨hmem a ha, by simp [ha]⟩
      · intro ha
        simpa using (List.mem_filter.mp ha).2
  · rw [all_combos_perms, List.nodup_flatMap]
    constructor
    · intro i _
      rw [List.nodup_flatMap]
      constructor
      · intro c hc
        have hcnod : c.Nodup :=
          List.Nodup.sublist (List.mem_sublistsLen.mp hc).1 hn
        exact ((List.permutations_perm_permutations' c).nodup_iff).mp
          (List.nodup_permutations c hcnod)
      · rw [List.pairwise_iff_forall_sublist]
        intro c1 c2 hsub2
        have hnodsl : (ids.sublistsLen (i + 1)).Nodup :=
          List.nodup_sublistsLen _ hn
        have hne12 : c1 ≠ c2 := by
          intro he
          subst he
          exact List.nodup_iff_sublist.mp hnodsl c1 hsub2
        have hc1 : c1 ∈ ids.sublistsLen (i + 1) := hsub2.subset (by simp)
        have hc2 : c2 ∈ ids.sublistsLen (i + 1) := hsub2.subset (by simp)
        intro r hr1 hr2
        exact hne12 (sublist_eq_of_perm hn (List.mem_sublistsLen.mp hc1).1
          (List.mem_sublistsLen.mp hc2).1
          ((List.mem_permutations'.mp hr1).symm.trans
            (List.mem_permutations'.mp hr2)))
    · rw [List.pairwise_iff_forall_sublist]
      intro i j hsub2
      have hij : i ≠ j := by
        intro he
        subst he
        exact List.nodup_iff_sublist.mp (List.nodup_range _) i hsub2
      intro r hri hrj
      obtain ⟨ci, hci, hpci⟩ := List.mem_flatMap.mp hri
      obtain ⟨cj, hcj, hpcj⟩ := List.mem_flatMap.mp hrj
      have hli : r.length = i + 1 := by
        rw [(List.mem_permutations'.mp hpci).length_eq]
        exact (List.mem_sublistsLen.mp hci).2
      have hlj : r.length = j + 1 := by
        rw [(List.mem_permutations'.mp hpcj).length_eq]
        exact (List.mem_sublistsLen.mp hcj).2
      exact hij (by omega)

/-- Witness for C7 at the two-order id set [1, 2] (route count 4). -/
theorem route_generator_exhaustive_witness :
    ([1, 2] : List ℕ).Nodup ∧
    ((all_combos_perms [1, 2]).length =
        ∑ k ∈ Finset.Icc 1 ([1, 2] : List ℕ).length,
          (([1, 2] : List ℕ).length.factorial /
            (([1, 2] : List ℕ).length - k).factorial) ∧
      (∀ r ∈ all_combos_perms [1, 2],
          r ≠ [] ∧ r.Nodup ∧ ∀ x ∈ r, x ∈ ([1, 2] : List ℕ)) ∧
      (∀ r : Route, r ≠ [] → r.Nodup → (∀ x ∈ r, x ∈ ([1, 2] : List ℕ)) →
          r ∈ all_combos_perms [1, 2]) ∧
      (all_combos_perms [1, 2]).Nodup) :=
  ⟨by decide, route_generator_exhaustive [1, 2] (by decide)⟩
